import Mathlib

/-!
# Verification of the brainiac5 frontend core

Shallow embedding of the tag/idea aggregation (`TagsIdeasPage.fetchTagsAndIdeas`),
the idea tag serialization (`IdeaModal`), the tag display (`Dashboard`), the
login flow (`Login.handleLogin`), the logout handler (`Navbar.handleLogout`)
and the route guard (`App.ProtectedRoute`), together with proofs of the
behavioural properties claimed by the specification.

JavaScript strings are modelled as Lean `String`; the JS string operations
used by the code (`trim`, `split`, `join`, `length`, the `/^\d{6}$/` test)
are defined by structural recursion over `String.data`.
-/

namespace Brainiac

/-! ## JavaScript string primitives -/

/-- Whitespace predicate used by `String.prototype.trim` (modelled by the
space, tab, carriage-return and newline characters). -/
def wsB (c : Char) : Bool := c.isWhitespace

/-- `trim` on character lists: drop leading and trailing whitespace. -/
def chTrim (l : List Char) : List Char :=
  ((l.dropWhile wsB).reverse.dropWhile wsB).reverse

/-- JavaScript `s.trim()`. -/
def jsTrim (s : String) : String := ⟨chTrim s.data⟩

/-- JavaScript `s.length` (number of characters). -/
def jsLength (s : String) : Nat := s.data.length

/-- JavaScript `s.split(sep)` for a one-character separator, on character
lists.  Splitting the empty list yields `[[]]`, as `"".split(';')` yields
`[""]` in JavaScript. -/
def chSplit (sep : Char) : List Char → List (List Char)
  | [] => [[]]
  | c :: cs =>
    if c = sep then [] :: chSplit sep cs
    else
      match chSplit sep cs with
      | [] => [[c]]
      | h :: t => (c :: h) :: t

/-- JavaScript `parts.join(sep)` for a one-character separator, on character
lists. -/
def chJoin (sep : Char) : List (List Char) → List Char
  | [] => []
  | [t] => t
  | t :: ts => t ++ sep :: chJoin sep ts

/-- The JavaScript regular-expression test `/^\d{6}$/.test(s)`: exactly six
ASCII digits. -/
def matchSixDigitRe (s : String) : Bool :=
  s.data.length == 6 && s.data.all Char.isDigit

/-! ## Data model of the tag/idea aggregator (`TagsIdeasPage.jsx`)

Idea records as returned by the idea store.  Identifiers are modelled as
natural numbers; the JavaScript falsy identifiers (`null`, `undefined`, `0`,
`""`) are modelled by `0`.  `title` and `content` are optional: `none` models
an absent (`undefined`/`null`) field and `some ""` an empty one, both falsy
in JavaScript. -/

structure Idea where
  id : Nat
  title : Option String
  content : Option String
deriving DecidableEq

/-- A leaf of the rendered hierarchy, as built by `fetchTagsAndIdeas`:
`{ id: idea.id, name: idea.title || 'Untitled Idea', description: idea.content || '' }`. -/
structure IdeaLeaf where
  id : Nat
  name : String
  description : String
deriving DecidableEq

/-- A tag record as returned by `getTags` (`{name: string}`). -/
structure TagRec where
  name : String
deriving DecidableEq

/-- A top-level node of the hierarchy: a tag name with its projected ideas. -/
structure TagNode where
  name : String
  ideas : List IdeaLeaf
deriving DecidableEq

/-- JavaScript `a || b` on an optional string: the default is taken when the
value is absent or empty (both falsy). -/
def jsOrStr : Option String → String → String
  | none, d => d
  | some s, d => if s = "" then d else s

/-- The per-idea projection performed by `fetchTagsAndIdeas` for both the
per-tag lists and the untagged bucket. -/
def projectIdea (i : Idea) : IdeaLeaf :=
  { id := i.id
    name := jsOrStr i.title "Untitled Idea"
    description := jsOrStr i.content "" }

/-- The external fetch environment seen by `fetchTagsAndIdeas`: the results
of `getTags()`, `getIdeasFromTags(name)` and `getIdeas()`.  A rejected
promise is modelled as `Except.error`. -/
structure Env where
  tagsResult : Except String (List TagRec)
  ideasForTag : String → Except String (List Idea)
  allIdeasResult : Except String (List Idea)

/-- The body of the async mapper inside `Promise.all`: fetch the ideas of one
tag and project them. -/
def buildTagNode (fetch : String → Except String (List Idea)) (t : TagRec) :
    Except String TagNode :=
  match fetch t.name with
  | .error e => .error e
  | .ok ideasData => .ok { name := t.name, ideas := ideasData.map projectIdea }

/-- `Promise.all(tagsData.map(...))`: the results in source order, or the
rejection of the whole batch as soon as any per-tag fetch rejects. -/
def fetchAllTagNodes (fetch : String → Except String (List Idea)) :
    List TagRec → Except String (List TagNode)
  | [] => .ok []
  | t :: ts =>
    match buildTagNode fetch t with
    | .error e => .error e
    | .ok node =>
      match fetchAllTagNodes fetch ts with
      | .error e => .error e
      | .ok nodes => .ok (node :: nodes)

/-- The `taggedIdeaIds` set: every idea id seen across all tag nodes, except
the falsy (`0`) ones, which the guard `if (idea.id)` skips. -/
def taggedIdeaIds (nodes : List TagNode) : List Nat :=
  nodes.flatMap (fun node => (node.ideas.filter (fun i => i.id != 0)).map (fun i => i.id))

/-- The untagged bucket:
`allIdeasData.filter(idea => !taggedIdeaIds.has(idea.id)).map(projection)`. -/
def computeUntagged (nodes : List TagNode) (allIdeas : List Idea) : List IdeaLeaf :=
  (allIdeas.filter (fun i => !(taggedIdeaIds nodes).contains i.id)).map projectIdea

/-- The value produced by a fully successful `fetchTagsAndIdeas` run. -/
structure FetchOutcome where
  tags : List TagNode
  untaggedIdeas : List IdeaLeaf
deriving DecidableEq

/-- The pure result of `fetchTagsAndIdeas`: tags fetch, per-tag fan-out via
`Promise.all`, all-ideas fetch and untagged computation; the first rejection
anywhere rejects the whole run. -/
def fetchTagsAndIdeas (env : Env) : Except String FetchOutcome :=
  match env.tagsResult with
  | .error e => .error e
  | .ok tagsData =>
    match fetchAllTagNodes env.ideasForTag tagsData with
    | .error e => .error e
    | .ok tagsWithIdeas =>
      match env.allIdeasResult with
      | .error e => .error e
      | .ok allIdeasData =>
        .ok { tags := tagsWithIdeas
              untaggedIdeas := computeUntagged tagsWithIdeas allIdeasData }

/-- The page state touched by `fetchTagsAndIdeas` (`tags`, `untaggedIdeas`
and `error` in `TagsIdeasPage`). -/
structure PageState where
  tags : List TagNode
  untaggedIdeas : List IdeaLeaf
  error : Option String
deriving DecidableEq

/-- The single aggregate error message set by the `catch` block. -/
def fetchFailMsg : String := "Failed to load tags and ideas. Please try again."

/-- The stateful run of `fetchTagsAndIdeas`: `setError(null)` first, then the
fetch sequence with `setTags` applied after the fan-out and `setUntaggedIdeas`
after the untagged computation; any rejection reaches the `catch` block,
which only sets the aggregate error message. -/
def fetchTagsAndIdeasRun (env : Env) (s0 : PageState) : PageState :=
  let s1 : PageState := { s0 with error := none }
  match env.tagsResult with
  | .error _ => { s1 with error := some fetchFailMsg }
  | .ok tagsData =>
    match fetchAllTagNodes env.ideasForTag tagsData with
    | .error _ => { s1 with error := some fetchFailMsg }
    | .ok tagsWithIdeas =>
      let s2 : PageState := { s1 with tags := tagsWithIdeas }
      match env.allIdeasResult with
      | .error _ => { s2 with error := some fetchFailMsg }
      | .ok allIdeasData =>
        { s2 with untaggedIdeas := computeUntagged tagsWithIdeas allIdeasData }

/-! ## Local storage, login (`Login.jsx`), logout (`Navbar.jsx`) and the
route guard (`App.jsx`) -/

/-- `localStorage.getItem`: the value stored under a key, if any. -/
def storeGet (st : List (String × String)) (k : String) : Option String :=
  match st.find? (fun p => p.1 == k) with
  | some p => some p.2
  | none => none

/-- `localStorage.setItem`: overwrite the value stored under a key. -/
def storeSet (st : List (String × String)) (k v : String) : List (String × String) :=
  (k, v) :: st.filter (fun p => p.1 != k)

/-- `localStorage.clear`: remove every key. -/
def storeClear (_ : List (String × String)) : List (String × String) := []

/-- The body of a `/verify-otp` response (`{status: ...}`). -/
structure VerifyResp where
  status : String
deriving DecidableEq

/-- Inline message for an empty e-mail. -/
def emailEmptyMsg : String := "Please enter your email address"

/-- Inline message for a malformed OTP code. -/
def otpShapeMsg : String := "Please enter a valid 6-digit OTP code"

/-- Generic failure message for a non-success verify response. -/
def invalidCredMsg : String := "Invalid email or OTP code. Please try again."

/-- Message for a transport failure of the verify request. -/
def connFailMsg : String := "Authentication failed. Please check your connection and try again."

/-- The observable outcome of one `handleLogin` submission. -/
structure LoginResult where
  networkCalled : Bool
  error : Option String
  store : List (String × String)
  navigatedToDashboard : Bool
deriving DecidableEq

/-- `Login.handleLogin`: pre-validate the e-mail and the OTP code, then call
`verifyOtp` and either set the `isAuthenticated` flag and navigate, or show
the generic failure message.  A rejected request (transport failure) is
modelled as `Except.error`. -/
def handleLogin (email otpCode : String)
    (verifyOtp : String → String → Except Unit VerifyResp)
    (store : List (String × String)) : LoginResult :=
  if jsTrim email == "" then
    { networkCalled := false, error := some emailEmptyMsg
      store := store, navigatedToDashboard := false }
  else if jsTrim otpCode == "" || jsLength otpCode != 6 || !matchSixDigitRe otpCode then
    { networkCalled := false, error := some otpShapeMsg
      store := store, navigatedToDashboard := false }
  else
    match verifyOtp (jsTrim email) (jsTrim otpCode) with
    | .error _ =>
      { networkCalled := true, error := some connFailMsg
        store := store, navigatedToDashboard := false }
    | .ok resp =>
      if resp.status == "success" then
        { networkCalled := true, error := none
          store := storeSet store "isAuthenticated" "true", navigatedToDashboard := true }
      else
        { networkCalled := true, error := some invalidCredMsg
          store := store, navigatedToDashboard := false }

/-- The outcome of `Navbar.handleLogout`: `localStorage.clear()` and a
redirect to the login page. -/
structure LogoutResult where
  store : List (String × String)
  location : String
deriving DecidableEq

/-- `Navbar.handleLogout`. -/
def handleLogout (store : List (String × String)) : LogoutResult :=
  { store := storeClear store, location := "/" }

/-- What a `ProtectedRoute` renders. -/
inductive RouteRender where
  | children
  | redirectToLogin
deriving DecidableEq

/-- `App.ProtectedRoute`: render the children only when the stored
`isAuthenticated` value is the string `"true"`; otherwise redirect to `/`. -/
def protectedRoute (store : List (String × String)) : RouteRender :=
  if storeGet store "isAuthenticated" = some "true" then .children
  else .redirectToLogin

/-! ## Idea tag serialization (`IdeaModal`) and display (`Dashboard`) -/

/-- `IdeaModal.handleSubmit`: the wire encoding of a tag list,
`tags.length > 0 ? tags.join(';') : ""`. -/
def serializeIdeaTags (ts : List String) : String :=
  if ts.length > 0 then ⟨chJoin ';' (ts.map String.data)⟩ else ""

/-- `IdeaModal` initialization: parse a wire tag string,
`initialData.tags.split(';').filter(tag => tag.trim() !== '')`. -/
def parseIdeaTags (s : String) : List String :=
  ((chSplit ';' s.data).map (fun l => (⟨l⟩ : String))).filter
    (fun t => jsTrim t != "")

/-- `Dashboard`'s tag rendering: when the tag string is non-blank, split on
`';'`, trim each fragment, and render only the fragments that are non-empty
after trimming. -/
def renderIdeaTags (s : String) : List String :=
  if (chTrim s.data).length > 0 then
    (chSplit ';' s.data).filterMap (fun frag =>
      let tt := chTrim frag
      if tt ≠ [] then some ((⟨tt⟩ : String)) else none)
  else []

/-! ## Concrete fetch environments used to instantiate the theorems -/

/-- A fetch environment in which the per-tag fetch for `"Beta"` rejects while
the one for `"Alpha"` succeeds. -/
def envC1 : Env :=
  { tagsResult := .ok [⟨"Alpha"⟩, ⟨"Beta"⟩]
    ideasForTag := fun name =>
      if name = "Beta" then .error "Request failed"
      else .ok [⟨1, some "A1", some "ca"⟩]
    allIdeasResult := .ok [⟨1, some "A1", some "ca"⟩] }

/-- The initial page state: no tags, no untagged ideas, no error. -/
def pageState0 : PageState := { tags := [], untaggedIdeas := [], error := none }

/-- An idea whose id is falsy (`0`). -/
def ideaZero : Idea := ⟨0, some "A", some "x"⟩

/-- A fetch environment in which the only tag's idea list and the all-ideas
list both hold the same idea with a falsy id. -/
def envC2 : Env :=
  { tagsResult := .ok [⟨"t"⟩]
    ideasForTag := fun _ => .ok [ideaZero]
    allIdeasResult := .ok [ideaZero] }

/-- A fetch environment with truthy ids: idea `1` is tagged, idea `2` is not. -/
def envC2w : Env :=
  { tagsResult := .ok [⟨"t"⟩]
    ideasForTag := fun _ => .ok [⟨1, some "A", some "x"⟩]
    allIdeasResult := .ok [⟨1, some "A", some "x"⟩, ⟨2, some "B", none⟩] }

/-- The outcome of `fetchTagsAndIdeas envC2w`. -/
def outC2w : FetchOutcome :=
  { tags := [⟨"t", [⟨1, "A", "x"⟩]⟩], untaggedIdeas := [⟨2, "B", ""⟩] }

/-- A fetch environment with two tags whose fetches both succeed. -/
def envC4 : Env :=
  { tagsResult := .ok [⟨"Alpha"⟩, ⟨"Beta"⟩]
    ideasForTag := fun name =>
      if name = "Alpha" then .ok [⟨1, some "A1", some "ca"⟩]
      else .ok [⟨2, some "B1", none⟩]
    allIdeasResult := .ok [⟨1, some "A1", some "ca"⟩, ⟨2, some "B1", none⟩] }

/-- The outcome of `fetchTagsAndIdeas envC4`. -/
def outC4 : FetchOutcome :=
  { tags := [⟨"Alpha", [⟨1, "A1", "ca"⟩]⟩, ⟨"Beta", [⟨2, "B1", ""⟩]⟩]
    untaggedIdeas := [] }

/-- A fetch environment exercising the title and content fallbacks. -/
def envC5 : Env :=
  { tagsResult := .ok [⟨"t"⟩]
    ideasForTag := fun _ => .ok [⟨1, some "A", some "x"⟩]
    allIdeasResult := .ok [⟨1, some "A", some "x"⟩, ⟨3, none, some "cc"⟩] }

/-- The outcome of `fetchTagsAndIdeas envC5`. -/
def outC5 : FetchOutcome :=
  { tags := [⟨"t", [⟨1, "A", "x"⟩]⟩]
    untaggedIdeas := [⟨3, "Untitled Idea", "cc"⟩] }

/-- A fetch environment in which a falsy-id idea sits under a tag and also in
the all-ideas list. -/
def envC10 : Env :=
  { tagsResult := .ok [⟨"t"⟩]
    ideasForTag := fun _ => .ok [⟨0, some "Z", some "w"⟩]
    allIdeasResult := .ok [⟨0, some "Z", some "w"⟩] }

/-- The outcome of `fetchTagsAndIdeas envC10`. -/
def outC10 : FetchOutcome :=
  { tags := [⟨"t", [⟨0, "Z", "w"⟩]⟩]
    untaggedIdeas := [⟨0, "Z", "w"⟩] }

/-! ## Helper lemmas -/

/-! ### Lemmas about the string primitives -/

theorem chSplit_ne_nil (sep : Char) (l : List Char) : chSplit sep l ≠ [] := by
  cases l with
  | nil => simp [chSplit]
  | cons c cs =>
    simp only [chSplit]
    split
    · simp
    · split <;> simp

theorem chSplit_no_sep {sep : Char} {l : List Char} (h : sep ∉ l) :
    chSplit sep l = [l] := by
  induction l with
  | nil => rfl
  | cons c cs ih =>
    have hc : c ≠ sep := fun hcs => h (hcs ▸ List.mem_cons_self c cs)
    have hcs : sep ∉ cs := fun hm => h (List.mem_cons_of_mem c hm)
    simp only [chSplit, if_neg hc, ih hcs]

theorem chSplit_append_sep {sep : Char} {t r : List Char} (h : sep ∉ t) :
    chSplit sep (t ++ sep :: r) = t :: chSplit sep r := by
  induction t with
  | nil => simp [chSplit]
  | cons c cs ih =>
    have hc : c ≠ sep := fun hcs => h (hcs ▸ List.mem_cons_self c cs)
    have hcs : sep ∉ cs := fun hm => h (List.mem_cons_of_mem c hm)
    simp only [List.cons_append, chSplit, if_neg hc]
    rw [show cs.append (sep :: r) = cs ++ sep :: r from rfl, ih hcs]

theorem chSplit_chJoin {sep : Char} :
    ∀ {ts : List (List Char)}, ts ≠ [] → (∀ t ∈ ts, sep ∉ t) →
      chSplit sep (chJoin sep ts) = ts
  | [], h, _ => absurd rfl h
  | [t], _, hsep => by
      simp only [chJoin]
      exact chSplit_no_sep (hsep t (List.mem_singleton_self t))
  | t :: t' :: ts, _, hsep => by
      have h1 : sep ∉ t := hsep t (List.mem_cons_self _ _)
      have h2 : ∀ u ∈ t' :: ts, sep ∉ u := fun u hu => hsep u (List.mem_cons_of_mem _ hu)
      show chSplit sep (t ++ sep :: chJoin sep (t' :: ts)) = t :: t' :: ts
      rw [chSplit_append_sep h1, chSplit_chJoin (by simp) h2]

theorem mem_of_mem_chSplit {sep c : Char} :
    ∀ {l : List Char} {t : List Char}, t ∈ chSplit sep l → c ∈ t → c ∈ l := by
  intro l
  induction l with
  | nil =>
    intro t ht hc
    simp [chSplit] at ht
    subst ht
    exact absurd hc (List.not_mem_nil c)
  | cons a as ih =>
    intro t ht hc
    simp only [chSplit] at ht
    by_cases ha : a = sep
    · rw [if_pos ha] at ht
      rcases List.mem_cons.mp ht with h | h
      · subst h; exact absurd hc (List.not_mem_nil c)
      · exact List.mem_cons_of_mem a (ih h hc)
    · rw [if_neg ha] at ht
      rcases hr : chSplit sep as with _ | ⟨h0, rest⟩
      · exact absurd hr (chSplit_ne_nil sep as)
      · rw [hr] at ht
        rcases List.mem_cons.mp ht with h | h
        · subst h
          rcases List.mem_cons.mp hc with h' | h'
          · exact h' ▸ List.mem_cons_self a as
          · exact List.mem_cons_of_mem a (ih (hr ▸ List.mem_cons_self h0 rest) h')
        · exact List.mem_cons_of_mem a (ih (hr ▸ List.mem_cons_of_mem h0 h) hc)

theorem chTrim_eq_nil_iff {l : List Char} :
    chTrim l = [] ↔ ∀ c ∈ l, wsB c = true := by
  unfold chTrim
  rw [List.reverse_eq_nil_iff, List.dropWhile_eq_nil_iff]
  constructor
  · intro h c hc
    by_cases hdrop : c ∈ l.dropWhile wsB
    · exact h c (by simpa using hdrop)
    · have hsplit := List.takeWhile_append_dropWhile (p := wsB) (l := l)
      have : c ∈ l.takeWhile wsB ++ l.dropWhile wsB := hsplit.symm ▸ hc
      rcases List.mem_append.mp this with h' | h'
      · exact List.mem_takeWhile_imp h'
      · exact absurd h' hdrop
  · intro h c hc
    exact h c (List.dropWhile_sublist wsB |>.mem (by simpa using hc))

theorem chTrim_all_ws {l : List Char} (h : ∀ c ∈ l, wsB c = true) :
    chTrim l = [] := chTrim_eq_nil_iff.mpr h

theorem isDigit_not_ws {c : Char} (h : c.isDigit = true) : wsB c = false := by
  have h48 : c.val ≥ 48 := by
    simp only [Char.isDigit, Bool.and_eq_true, decide_eq_true_eq] at h
    exact h.1
  simp only [wsB, Char.isWhitespace, Bool.or_eq_false_iff, decide_eq_false_iff_not]
  refine ⟨⟨⟨?_, ?_⟩, ?_⟩, ?_⟩ <;> intro he <;> subst he <;> revert h48 <;> decide

theorem chTrim_of_digits {l : List Char} (h : ∀ c ∈ l, c.isDigit = true) :
    chTrim l = l := by
  have hdrop : l.dropWhile wsB = l := by
    cases l with
    | nil => rfl
    | cons c cs =>
      rw [List.dropWhile_cons_of_neg]
      simp [isDigit_not_ws (h c (List.mem_cons_self c cs))]
  have hdrop2 : l.reverse.dropWhile wsB = l.reverse := by
    cases hr : l.reverse with
    | nil => rfl
    | cons c cs =>
      rw [List.dropWhile_cons_of_neg]
      have hc : c ∈ l := by
        rw [← List.mem_reverse, hr]
        exact List.mem_cons_self c cs
      simp [isDigit_not_ws (h c hc)]
  unfold chTrim
  rw [hdrop, hdrop2, List.reverse_reverse]

/-! ### Lemmas about the aggregator -/

theorem mem_taggedIdeaIds {nodes : List TagNode} {n : Nat} :
    n ∈ taggedIdeaIds nodes ↔
      ∃ node ∈ nodes, ∃ l ∈ node.ideas, l.id ≠ 0 ∧ l.id = n := by
  simp only [taggedIdeaIds, List.mem_flatMap, List.mem_map, List.mem_filter,
    bne_iff_ne, ne_eq]
  constructor
  · rintro ⟨node, hn, l, ⟨hl, hl0⟩, rfl⟩
    exact ⟨node, hn, l, hl, hl0, rfl⟩
  · rintro ⟨node, hn, l, hl, hl0, rfl⟩
    exact ⟨node, hn, l, ⟨hl, hl0⟩, rfl⟩

theorem zero_not_mem_taggedIdeaIds (nodes : List TagNode) :
    0 ∉ taggedIdeaIds nodes := by
  rw [mem_taggedIdeaIds]
  rintro ⟨node, _, l, _, hl0, hl⟩
  exact hl0 hl

theorem fetchAllTagNodes_ok {f : String → Except String (List Idea)} :
    ∀ {ts : List TagRec} {nodes : List TagNode},
      fetchAllTagNodes f ts = .ok nodes →
      nodes.map TagNode.name = ts.map TagRec.name ∧
      ∀ node ∈ nodes, ∃ l, f node.name = .ok l ∧ node.ideas = l.map projectIdea := by
  intro ts
  induction ts with
  | nil =>
    intro nodes h
    simp only [fetchAllTagNodes] at h
    cases h
    simp
  | cons t ts ih =>
    intro nodes h
    simp only [fetchAllTagNodes, buildTagNode] at h
    rcases hf : f t.name with e | l <;> rw [hf] at h
    · exact absurd h (by simp)
    · rcases hr : fetchAllTagNodes f ts with e | rest <;> rw [hr] at h
      · exact absurd h (by simp)
      · cases h
        obtain ⟨ihn, ihp⟩ := ih hr
        refine ⟨by simpa using ihn, ?_⟩
        intro node hn
        rcases List.mem_cons.mp hn with h | h
        · subst h
          exact ⟨l, hf, rfl⟩
        · exact ihp node h

theorem fetchAllTagNodes_error {f : String → Except String (List Idea)} :
    ∀ {ts : List TagRec}, (∃ t ∈ ts, ∃ e, f t.name = .error e) →
      ∃ e, fetchAllTagNodes f ts = .error e := by
  intro ts
  induction ts with
  | nil => rintro ⟨t, ht, _⟩; exact absurd ht (List.not_mem_nil t)
  | cons t ts ih =>
    rintro ⟨t0, ht0, e0, he0⟩
    simp only [fetchAllTagNodes, buildTagNode]
    rcases hf : f t.name with e | l
    · exact ⟨e, rfl⟩
    · rcases List.mem_cons.mp ht0 with h | h
      · subst h
        rw [hf] at he0
        exact absurd he0 (by simp)
      · obtain ⟨e, he⟩ := ih ⟨t0, h, e0, he0⟩
        rw [he]
        exact ⟨e, rfl⟩

theorem fetchTagsAndIdeas_ok_inv {env : Env} {out : FetchOutcome}
    (h : fetchTagsAndIdeas env = .ok out) :
    ∃ tagsData allIdeas,
      env.tagsResult = .ok tagsData ∧
      fetchAllTagNodes env.ideasForTag tagsData = .ok out.tags ∧
      env.allIdeasResult = .ok allIdeas ∧
      out.untaggedIdeas = computeUntagged out.tags allIdeas := by
  unfold fetchTagsAndIdeas at h
  split at h
  · exact absurd h (by simp)
  · rename_i tagsData h1
    split at h
    · exact absurd h (by simp)
    · rename_i nodes h2
      split at h
      · exact absurd h (by simp)
      · rename_i allIdeas h3
        cases h
        exact ⟨tagsData, allIdeas, h1, h2, h3, rfl⟩

theorem storeGet_storeSet (st : List (String × String)) (k v : String) :
    storeGet (storeSet st k v) k = some v := by
  simp [storeGet, storeSet, List.find?_cons_of_pos]

theorem contains_taggedIdeaIds_iff {nodes : List TagNode} {n : Nat}
    (htruthy : ∀ node ∈ nodes, ∀ l ∈ node.ideas, l.id ≠ 0) :
    (taggedIdeaIds nodes).contains n = true ↔
      ∃ node ∈ nodes, ∃ l ∈ node.ideas, l.id = n := by
  have hmem : (taggedIdeaIds nodes).contains n = true ↔ n ∈ taggedIdeaIds nodes := by
    simp [List.contains]
  rw [hmem, mem_taggedIdeaIds]
  constructor
  · rintro ⟨node, hn, l, hl, _, hln⟩
    exact ⟨node, hn, l, hl, hln⟩
  · rintro ⟨node, hn, l, hl, hln⟩
    exact ⟨node, hn, l, hl, htruthy node hn l hl, hln⟩

theorem filterMap_trim_eq (frags : List (List Char)) :
    (frags.filterMap (fun frag =>
        let tt := chTrim frag
        if tt ≠ [] then some ((⟨tt⟩ : String)) else none)) =
      ((frags.map chTrim).filter (fun l => !l.isEmpty)).map (fun l => (⟨l⟩ : String)) := by
  have hfun : (fun frag : List Char =>
      let tt := chTrim frag
      if tt ≠ [] then some ((⟨tt⟩ : String)) else none) =
      (fun frag : List Char =>
        if chTrim frag = [] then none else some ((⟨chTrim frag⟩ : String))) := by
    funext frag
    by_cases h : chTrim frag = [] <;> simp [h]
  rw [hfun]
  induction frags with
  | nil => rfl
  | cons f fs ih =>
    simp only [List.filterMap_cons, List.map_cons, List.filter_cons]
    by_cases h : chTrim f = []
    · simp [h, ih, List.isEmpty_iff]
    · have hne : (!(chTrim f).isEmpty) = true := by simp [List.isEmpty_iff, h]
      simp [h, hne, ih]

/-! ## Claim theorems -/

/-- Claim C1, counterexample to the claim as stated: in `envC1` the per-tag
fetch for `"Beta"` fails while the one for `"Alpha"` succeeds, yet the run
leaves the hierarchy empty — the `"Alpha"` node is not rendered — and reports
the single aggregate error message, because the rejection of one mapped
promise rejects the whole `Promise.all` and lands in the outer `catch`. -/
theorem c1_counterexample :
    (fetchTagsAndIdeasRun envC1 pageState0).tags = [] ∧
    (fetchTagsAndIdeasRun envC1 pageState0).error = some fetchFailMsg :=
  ⟨rfl, rfl⟩

/-- Claim C1 (amended): there is no per-tag failure isolation — if the fetch
of ideas for any one tag fails (just as when the tags-list fetch itself
fails), the whole aggregation aborts with the single aggregate error message
and the page state is otherwise left as it was. -/
theorem c1_any_tag_fetch_failure_aborts (env : Env) (s0 : PageState) :
    (∀ e, env.tagsResult = .error e →
      fetchTagsAndIdeasRun env s0 = { s0 with error := some fetchFailMsg })
    ∧ (∀ tagsData, env.tagsResult = .ok tagsData →
      (∃ t ∈ tagsData, ∃ e, env.ideasForTag t.name = .error e) →
      fetchTagsAndIdeasRun env s0 = { s0 with error := some fetchFailMsg }) := by
  constructor
  · intro e he
    simp only [fetchTagsAndIdeasRun, he]
  · intro tagsData htd hex
    obtain ⟨e, he⟩ := fetchAllTagNodes_error hex
    simp only [fetchTagsAndIdeasRun, htd, he]

/-- Claim C1, witness for the amended theorem at the concrete environment
`envC1`. -/
theorem c1_witness :
    fetchTagsAndIdeasRun envC1 pageState0 = { pageState0 with error := some fetchFailMsg } :=
  (c1_any_tag_fetch_failure_aborts envC1 pageState0).2 [⟨"Alpha"⟩, ⟨"Beta"⟩] rfl
    ⟨⟨"Beta"⟩, by decide, "Request failed", rfl⟩

/-- Claim C2, counterexample to the claim as stated: in `envC2` the idea
`ideaZero` (id `0`, falsy) appears in tag `"t"`'s idea list, yet the untagged
bucket contains a leaf with that same id, so the bucket is not the exact set
difference against the ids appearing under tags. -/
theorem c2_counterexample :
    fetchTagsAndIdeas envC2 = .ok
      { tags := [{ name := "t", ideas := [projectIdea ideaZero] }]
        untaggedIdeas := [projectIdea ideaZero] } ∧
    (projectIdea ideaZero).id = 0 :=
  ⟨rfl, rfl⟩

/-- Claim C2 (amended): when every idea id appearing under a tag is truthy
(non-zero) and the all-ideas list has pairwise-distinct ids, the untagged
bucket is the exact set difference — it holds the projection of an all-ideas
idea exactly when its id appears in no tag's idea list, it only holds
projections of all-ideas ideas, it has no duplicate ids — and every all-ideas
idea either has its id under some tag or lands in the untagged bucket. -/
theorem c2_unassigned_completeness (env : Env) (out : FetchOutcome) (allIdeas : List Idea)
    (hok : fetchTagsAndIdeas env = .ok out)
    (hall : env.allIdeasResult = .ok allIdeas)
    (htruthy : ∀ node ∈ out.tags, ∀ l ∈ node.ideas, l.id ≠ 0)
    (hnodup : (allIdeas.map Idea.id).Nodup) :
    (∀ i ∈ allIdeas,
      (projectIdea i ∈ out.untaggedIdeas ↔
        ¬ ∃ node ∈ out.tags, ∃ l ∈ node.ideas, l.id = i.id))
    ∧ (∀ u ∈ out.untaggedIdeas, ∃ i ∈ allIdeas, u = projectIdea i)
    ∧ (out.untaggedIdeas.map IdeaLeaf.id).Nodup
    ∧ (∀ i ∈ allIdeas,
      (∃ node ∈ out.tags, ∃ l ∈ node.ideas, l.id = i.id) ∨
        projectIdea i ∈ out.untaggedIdeas) := by
  obtain ⟨tagsData, allIdeas', _, _, hall', huntagged⟩ := fetchTagsAndIdeas_ok_inv hok
  rw [hall] at hall'
  injection hall' with h
  subst h
  have hbridge := fun n => @contains_taggedIdeaIds_iff out.tags n htruthy
  have hmemiff : ∀ i ∈ allIdeas,
      (projectIdea i ∈ out.untaggedIdeas ↔
        ¬ ∃ node ∈ out.tags, ∃ l ∈ node.ideas, l.id = i.id) := by
    intro i hi
    rw [huntagged]
    unfold computeUntagged
    constructor
    · intro hmem
      obtain ⟨j, hj, hpj⟩ := List.mem_map.mp hmem
      have hjf := List.mem_filter.mp hj
      have hid : j.id = i.id := congrArg IdeaLeaf.id hpj
      intro hex
      have : (taggedIdeaIds out.tags).contains j.id = true := by
        rw [hid]
        exact (hbridge i.id).mpr hex
      rw [this] at hjf
      exact absurd hjf.2 (by simp)
    · intro hnex
      apply List.mem_map_of_mem
      rw [List.mem_filter]
      refine ⟨hi, ?_⟩
      have : (taggedIdeaIds out.tags).contains i.id = false := by
        rcases hc : (taggedIdeaIds out.tags).contains i.id
        · rfl
        · exact absurd ((hbridge i.id).mp hc) hnex
      rw [this]
      rfl
  refine ⟨hmemiff, ?_, ?_, ?_⟩
  · intro u hu
    rw [huntagged] at hu
    unfold computeUntagged at hu
    obtain ⟨j, hj, hpj⟩ := List.mem_map.mp hu
    exact ⟨j, (List.mem_filter.mp hj).1, hpj.symm⟩
  · rw [huntagged]
    unfold computeUntagged
    rw [List.map_map]
    have : (IdeaLeaf.id ∘ projectIdea) = Idea.id := funext fun i => rfl
    rw [this]
    exact hnodup.sublist ((List.filter_sublist allIdeas).map Idea.id)
  · intro i hi
    by_cases hex : ∃ node ∈ out.tags, ∃ l ∈ node.ideas, l.id = i.id
    · exact Or.inl hex
    · exact Or.inr ((hmemiff i hi).mpr hex)

/-- Claim C2, witness for the amended theorem at the concrete environment
`envC2w` (idea `1` tagged under `"t"`, idea `2` untagged, all ids truthy). -/
theorem c2_witness :
    (∀ i ∈ [(⟨1, some "A", some "x"⟩ : Idea), ⟨2, some "B", none⟩],
      (projectIdea i ∈ outC2w.untaggedIdeas ↔
        ¬ ∃ node ∈ outC2w.tags, ∃ l ∈ node.ideas, l.id = i.id))
    ∧ (∀ u ∈ outC2w.untaggedIdeas,
        ∃ i ∈ [(⟨1, some "A", some "x"⟩ : Idea), ⟨2, some "B", none⟩], u = projectIdea i)
    ∧ (outC2w.untaggedIdeas.map IdeaLeaf.id).Nodup
    ∧ (∀ i ∈ [(⟨1, some "A", some "x"⟩ : Idea), ⟨2, some "B", none⟩],
        (∃ node ∈ outC2w.tags, ∃ l ∈ node.ideas, l.id = i.id) ∨
          projectIdea i ∈ outC2w.untaggedIdeas) :=
  c2_unassigned_completeness envC2w outC2w
    [⟨1, some "A", some "x"⟩, ⟨2, some "B", none⟩] rfl rfl (by decide) (by decide)

/-- Claim C10: only truthy ids are recorded in the tagged-id set, so even
when an idea with falsy id `0` appears under some tag, any all-ideas idea
with that same falsy id is still placed in the untagged bucket. -/
theorem c10_falsy_id_untagged (env : Env) (out : FetchOutcome)
    (allIdeas : List Idea) (i : Idea)
    (hok : fetchTagsAndIdeas env = .ok out)
    (hall : env.allIdeasResult = .ok allIdeas)
    (_hfalsy : ∃ node ∈ out.tags, ∃ l ∈ node.ideas, l.id = 0)
    (hi : i ∈ allIdeas) (hid : i.id = 0) :
    projectIdea i ∈ out.untaggedIdeas := by
  obtain ⟨tagsData, allIdeas', _, _, hall', huntagged⟩ := fetchTagsAndIdeas_ok_inv hok
  rw [hall] at hall'
  injection hall' with h
  subst h
  rw [huntagged]
  unfold computeUntagged
  apply List.mem_map_of_mem
  rw [List.mem_filter]
  refine ⟨hi, ?_⟩
  have : (taggedIdeaIds out.tags).contains i.id = false := by
    rcases hc : (taggedIdeaIds out.tags).contains i.id
    · rfl
    · have := List.contains_iff_exists_mem_beq.mp hc
      obtain ⟨m, hm, hbeq⟩ := this
      have : i.id = m := by simpa using hbeq
      rw [hid] at this
      exact absurd (this ▸ hm) (zero_not_mem_taggedIdeaIds out.tags)
  rw [this]
  rfl

/-- Claim C4: on a successful aggregation the hierarchy's top-level sequence
has one node per tag, named in exactly the order the tag source returned the
tags, and each node's ideas are the per-tag source's list projected in
order.  (Completion timing does not exist in this embedding: `Promise.all`
returns the results in the order of the mapped array regardless of it.) -/
theorem c4_aggregation_ordering (env : Env) (tagsData : List TagRec) (out : FetchOutcome)
    (htags : env.tagsResult = .ok tagsData)
    (hok : fetchTagsAndIdeas env = .ok out) :
    out.tags.map TagNode.name = tagsData.map TagRec.name ∧
    ∀ node ∈ out.tags, ∃ ideasData, env.ideasForTag node.name = .ok ideasData ∧
      node.ideas = ideasData.map projectIdea := by
  obtain ⟨tagsData', _, htd', hfa, _, _⟩ := fetchTagsAndIdeas_ok_inv hok
  rw [htags] at htd'
  injection htd' with h
  subst h
  exact fetchAllTagNodes_ok hfa

/-- Claim C4, witness at the concrete environment `envC4` with tags
`["Alpha", "Beta"]`. -/
theorem c4_witness :
    outC4.tags.map TagNode.name =
      [(⟨"Alpha"⟩ : TagRec), ⟨"Beta"⟩].map TagRec.name ∧
    ∀ node ∈ outC4.tags, ∃ ideasData, envC4.ideasForTag node.name = .ok ideasData ∧
      node.ideas = ideasData.map projectIdea :=
  c4_aggregation_ordering envC4 [⟨"Alpha"⟩, ⟨"Beta"⟩] outC4 rfl rfl

/-- Claim C5: every leaf record carries the source idea's id, a display name
equal to the idea's title (or the placeholder `"Untitled Idea"` when the
title is absent or empty), and a description equal to the idea's content (or
the empty string when the content is absent); per-tag idea lists and the
untagged bucket are exactly the projections of the fetched idea lists. -/
theorem c5_leaf_projection :
    (∀ i : Idea,
      (projectIdea i).id = i.id ∧
      (projectIdea i).name = (match i.title with
        | none => "Untitled Idea"
        | some t => if t = "" then "Untitled Idea" else t) ∧
      (projectIdea i).description = (match i.content with
        | none => ""
        | some c => c))
    ∧ (∀ env out node ideasData, fetchTagsAndIdeas env = .ok out → node ∈ out.tags →
        env.ideasForTag node.name = .ok ideasData →
        node.ideas = ideasData.map projectIdea)
    ∧ (∀ env out allIdeas, fetchTagsAndIdeas env = .ok out →
        env.allIdeasResult = .ok allIdeas →
        out.untaggedIdeas =
          (allIdeas.filter (fun i => !(taggedIdeaIds out.tags).contains i.id)).map
            projectIdea) := by
  refine ⟨?_, ?_, ?_⟩
  · intro i
    obtain ⟨iid, ititle, icontent⟩ := i
    refine ⟨rfl, ?_, ?_⟩
    · rcases ititle with _ | t
      · rfl
      · by_cases ht : t = "" <;> simp [projectIdea, jsOrStr, ht]
    · rcases icontent with _ | c
      · rfl
      · by_cases hc : c = ""
        · subst hc
          simp [projectIdea, jsOrStr]
        · simp [projectIdea, jsOrStr, hc]
  · intro env out node ideasData hok hnode hfetch
    obtain ⟨tagsData, _, _, hfa, _, _⟩ := fetchTagsAndIdeas_ok_inv hok
    obtain ⟨_, hall⟩ := fetchAllTagNodes_ok hfa
    obtain ⟨l, hl, hli⟩ := hall node hnode
    rw [hfetch] at hl
    injection hl with h
    subst h
    exact hli
  · intro env out allIdeas hok hall
    obtain ⟨tagsData, allIdeas', _, _, hall', huntagged⟩ := fetchTagsAndIdeas_ok_inv hok
    rw [hall] at hall'
    injection hall' with h
    subst h
    exact huntagged

/-- Claim C5, witness: the title fallback at an idea with absent title, and
the per-tag projection at the concrete environment `envC5`. -/
theorem c5_witness :
    (projectIdea ⟨3, none, some "cc"⟩).name = "Untitled Idea" ∧
    ({ name := "t", ideas := [⟨1, "A", "x"⟩] } : TagNode).ideas =
      [(⟨1, some "A", some "x"⟩ : Idea)].map projectIdea :=
  ⟨(c5_leaf_projection.1 ⟨3, none, some "cc"⟩).2.1,
   c5_leaf_projection.2.1 envC5 outC5 ⟨"t", [⟨1, "A", "x"⟩]⟩
     [⟨1, some "A", some "x"⟩] rfl (by decide) rfl⟩

/-- Claim C10, witness at the concrete environment `envC10`. -/
theorem c10_witness :
    projectIdea ⟨0, some "Z", some "w"⟩ ∈ outC10.untaggedIdeas :=
  c10_falsy_id_untagged envC10 outC10 [⟨0, some "Z", some "w"⟩] ⟨0, some "Z", some "w"⟩
    rfl rfl (by decide) (by decide) rfl

/-- Claim C3: for a list of tags that are individually non-empty, not
whitespace-only and free of the `';'` delimiter, serializing by joining with
`';'` and parsing by splitting on `';'` and discarding whitespace-only
fragments yields the same list in the same order; the empty tag list
serializes to `""` and parses back to `[]`. -/
theorem c3_tag_round_trip (ts : List String)
    (h : ∀ t ∈ ts, ';' ∉ t.data ∧ chTrim t.data ≠ []) :
    parseIdeaTags (serializeIdeaTags ts) = ts ∧
    serializeIdeaTags [] = "" ∧ parseIdeaTags "" = [] := by
  refine ⟨?_, rfl, by decide⟩
  cases ts with
  | nil => decide
  | cons t0 rest =>
    have hser : serializeIdeaTags (t0 :: rest) =
        ⟨chJoin ';' ((t0 :: rest).map String.data)⟩ := by
      simp [serializeIdeaTags]
    rw [hser]
    unfold parseIdeaTags
    have hsplit : chSplit ';' (⟨chJoin ';' ((t0 :: rest).map String.data)⟩ : String).data =
        (t0 :: rest).map String.data := by
      apply chSplit_chJoin (by simp)
      intro l hl
      obtain ⟨t, ht, rfl⟩ := List.mem_map.mp hl
      exact (h t ht).1
    rw [hsplit, List.map_map]
    rw [show ((fun l => (⟨l⟩ : String)) ∘ String.data) = id from funext fun t => rfl,
      List.map_id]
    apply List.filter_eq_self.mpr
    intro t ht
    have htr : chTrim t.data ≠ [] := (h t ht).2
    have : jsTrim t ≠ "" := by
      unfold jsTrim
      intro hq
      exact htr (congrArg String.data hq)
    simpa using this

/-- Claim C3, witness at the tag list `["a", "b", "c"]`. -/
theorem c3_witness :
    parseIdeaTags (serializeIdeaTags ["a", "b", "c"]) = ["a", "b", "c"] ∧
    serializeIdeaTags [] = "" ∧ parseIdeaTags "" = [] :=
  c3_tag_round_trip ["a", "b", "c"] (by decide)

/-- Claim C9: the wire encoding of an idea's tag list is the single string of
tags joined by `';'`, and the dashboard display renders, in order, exactly
the `';'`-fragments trimmed of surrounding whitespace, with fragments that
are empty after trimming not rendered at all. -/
theorem c9_tag_display_trimming :
    (∀ s : String, renderIdeaTags s =
      (((chSplit ';' s.data).map chTrim).filter (fun l => !l.isEmpty)).map
        (fun l => (⟨l⟩ : String)))
    ∧ (∀ ts : List String,
        serializeIdeaTags ts = ⟨chJoin ';' (ts.map String.data)⟩) := by
  constructor
  · intro s
    unfold renderIdeaTags
    by_cases hg : (chTrim s.data).length > 0
    · rw [if_pos hg]
      exact filterMap_trim_eq (chSplit ';' s.data)
    · rw [if_neg hg]
      have hnil : chTrim s.data = [] := by
        rcases hq : chTrim s.data with _ | ⟨c, cs⟩
        · rfl
        · rw [hq] at hg
          exact absurd (by simp) hg
      have hws : ∀ c ∈ s.data, wsB c = true := chTrim_eq_nil_iff.mp hnil
      have hfrag : ∀ l ∈ (chSplit ';' s.data).map chTrim, (!l.isEmpty) = false := by
        intro l hl
        obtain ⟨frag, hfrag, rfl⟩ := List.mem_map.mp hl
        have : chTrim frag = [] :=
          chTrim_all_ws fun c hc => hws c (mem_of_mem_chSplit hfrag hc)
        simp [this]
      rw [List.filter_eq_nil_iff.mpr (fun l hl => by simp [hfrag l hl])]
      rfl
  · intro ts
    cases ts with
    | nil => rfl
    | cons t rest => simp [serializeIdeaTags]

/-- Claim C6: a submission whose e-mail is empty after trimming, or whose
OTP code is not exactly six ASCII digits, surfaces an inline validation error
and issues no network call; the verify request is sent exactly when both
inputs pass the shape checks. -/
theorem c6_login_prevalidation (email otpCode : String)
    (verifyOtp : String → String → Except Unit VerifyResp)
    (store : List (String × String)) :
    ((jsTrim email = "" ∨
        ¬ (jsLength otpCode = 6 ∧ ∀ c ∈ otpCode.data, c.isDigit = true)) →
      (handleLogin email otpCode verifyOtp store).networkCalled = false ∧
      (handleLogin email otpCode verifyOtp store).error ≠ none)
    ∧ ((handleLogin email otpCode verifyOtp store).networkCalled = true ↔
        (jsTrim email ≠ "" ∧ jsLength otpCode = 6 ∧
          ∀ c ∈ otpCode.data, c.isDigit = true)) := by
  have hre : matchSixDigitRe otpCode = true ↔
      (jsLength otpCode = 6 ∧ ∀ c ∈ otpCode.data, c.isDigit = true) := by
    simp [matchSixDigitRe, jsLength, List.all_eq_true]
  have htrimne : matchSixDigitRe otpCode = true → jsTrim otpCode ≠ "" := by
    intro hm
    have hd := (hre.mp hm).2
    have h6 := (hre.mp hm).1
    have heq : jsTrim otpCode = otpCode := by
      unfold jsTrim
      rw [chTrim_of_digits hd]
    rw [heq]
    intro hq
    rw [hq] at h6
    simp [jsLength] at h6
  unfold handleLogin
  by_cases he : jsTrim email = ""
  · rw [if_pos (beq_iff_eq.mpr he)]
    refine ⟨fun _ => ⟨rfl, by simp⟩, ?_⟩
    constructor
    · intro hh
      exact absurd hh (by simp)
    · rintro ⟨hne, _⟩
      exact absurd he hne
  · rw [if_neg (by simpa using he)]
    by_cases hm : matchSixDigitRe otpCode = true
    · have hguard : (jsTrim otpCode == "" || jsLength otpCode != 6 ||
          !matchSixDigitRe otpCode) = false := by
        have h1 : (jsTrim otpCode == "") = false := by
          simpa using htrimne hm
        have h2 : (jsLength otpCode != 6) = false := by
          simp [(hre.mp hm).1]
        rw [h1, h2, hm]
        rfl
      rw [if_neg (by simp [hguard])]
      rcases hv : verifyOtp (jsTrim email) (jsTrim otpCode) with u | resp
      · refine ⟨fun hor => ?_, ?_⟩
        · rcases hor with h | h
          · exact absurd h he
          · exact absurd (hre.mp hm) h
        · exact ⟨fun _ => ⟨he, hre.mp hm⟩, fun _ => rfl⟩
      · have hnc : (match (motive := Except Unit VerifyResp → LoginResult)
            Except.ok resp with
          | .error _ =>
            { networkCalled := true, error := some connFailMsg
              store := store, navigatedToDashboard := false }
          | .ok resp =>
            if resp.status == "success" then
              { networkCalled := true, error := none
                store := storeSet store "isAuthenticated" "true"
                navigatedToDashboard := true }
            else
              { networkCalled := true, error := some invalidCredMsg
                store := store, navigatedToDashboard := false }).networkCalled
            = true := by
          by_cases hs : (resp.status == "success") = true
          · simp only [hs, if_true]
          · have hs2 : (resp.status == "success") = false := by
              rcases hq : (resp.status == "success")
              · rfl
              · exact absurd hq hs
            simp only [hs2, Bool.false_eq_true, if_false]
        refine ⟨fun hor => ?_, ?_⟩
        · rcases hor with h | h
          · exact absurd h he
          · exact absurd (hre.mp hm) h
        · exact ⟨fun _ => ⟨he, hre.mp hm⟩, fun _ => hnc⟩
    · have hmf : matchSixDigitRe otpCode = false := by
        rcases hq : matchSixDigitRe otpCode
        · rfl
        · exact absurd hq hm
      have hguard : (jsTrim otpCode == "" || jsLength otpCode != 6 ||
          !matchSixDigitRe otpCode) = true := by
        rw [hmf]
        simp
      rw [if_pos hguard]
      refine ⟨fun _ => ⟨rfl, by simp⟩, ?_⟩
      constructor
      · intro hh
        exact absurd hh (by simp)
      · rintro ⟨_, hP⟩
        exact absurd (hre.mpr hP) hm

/-- Claim C6, witness: an empty e-mail is rejected inline with no network
call. -/
theorem c6_witness :
    (handleLogin "" "123456" (fun _ _ => .ok ⟨"success"⟩) []).networkCalled = false ∧
    (handleLogin "" "123456" (fun _ _ => .ok ⟨"success"⟩) []).error ≠ none :=
  (c6_login_prevalidation "" "123456" (fun _ _ => .ok ⟨"success"⟩) []).1
    (Or.inl (by decide))

/-- Claim C7: every verify response whose status is not `"success"` — be it
for a non-enrolled e-mail or a wrong code — produces the identical generic
failure presentation: the same constant error message, independent of which
part of the credentials failed. -/
theorem c7_generic_auth_failure (email otpCode : String)
    (store : List (String × String)) (r1 r2 : VerifyResp)
    (h1 : r1.status ≠ "success") (h2 : r2.status ≠ "success") :
    (handleLogin email otpCode (fun _ _ => .ok r1) store).error =
      (handleLogin email otpCode (fun _ _ => .ok r2) store).error ∧
    ((handleLogin email otpCode (fun _ _ => .ok r1) store).networkCalled = true →
      (handleLogin email otpCode (fun _ _ => .ok r1) store).error =
        some invalidCredMsg) := by
  unfold handleLogin
  by_cases he : (jsTrim email == "") = true
  · rw [if_pos he, if_pos he]
    exact ⟨rfl, fun hh => absurd hh (by simp)⟩
  · rw [if_neg he, if_neg he]
    by_cases hg : (jsTrim otpCode == "" || jsLength otpCode != 6 ||
        !matchSixDigitRe otpCode) = true
    · rw [if_pos hg, if_pos hg]
      exact ⟨rfl, fun hh => absurd hh (by simp)⟩
    · rw [if_neg hg, if_neg hg]
      have hs1 : (r1.status == "success") = false := by simpa using h1
      have hs2 : (r2.status == "success") = false := by simpa using h2
      simp [hs1, hs2]

/-- Claim C7, witness: two distinct non-success responses at concrete valid
credentials yield the same presentation. -/
theorem c7_witness :
    (handleLogin "a@b.c" "123456" (fun _ _ => .ok ⟨"error"⟩) []).error =
      (handleLogin "a@b.c" "123456" (fun _ _ => .ok ⟨"denied"⟩) []).error ∧
    ((handleLogin "a@b.c" "123456" (fun _ _ => .ok ⟨"error"⟩) []).networkCalled = true →
      (handleLogin "a@b.c" "123456" (fun _ _ => .ok ⟨"error"⟩) []).error =
        some invalidCredMsg) :=
  c7_generic_auth_failure "a@b.c" "123456" [] ⟨"error"⟩ ⟨"denied"⟩
    (by decide) (by decide)

/-- Claim C8: the `isAuthenticated` flag is written (to the string `"true"`)
exactly when the verify call happens and returns status `"success"`; logout
clears the whole store, so the flag reads back as absent; and a protected
route renders its children exactly while the stored flag equals `"true"`,
redirecting to the login page otherwise. -/
theorem c8_session_flag_lifecycle (email otpCode : String)
    (verifyOtp : String → String → Except Unit VerifyResp)
    (store : List (String × String)) :
    (((handleLogin email otpCode verifyOtp store).networkCalled = true ∧
        ∃ v, verifyOtp (jsTrim email) (jsTrim otpCode) = .ok v ∧ v.status = "success") →
      (handleLogin email otpCode verifyOtp store).store =
        storeSet store "isAuthenticated" "true" ∧
      storeGet (handleLogin email otpCode verifyOtp store).store "isAuthenticated" =
        some "true")
    ∧ ((¬ ((handleLogin email otpCode verifyOtp store).networkCalled = true ∧
        ∃ v, verifyOtp (jsTrim email) (jsTrim otpCode) = .ok v ∧ v.status = "success")) →
      (handleLogin email otpCode verifyOtp store).store = store)
    ∧ (∀ st2, storeGet (handleLogout st2).store "isAuthenticated" = none)
    ∧ (∀ st3, protectedRoute st3 = RouteRender.children ↔
        storeGet st3 "isAuthenticated" = some "true") := by
  refine ⟨?_, ?_, fun st2 => rfl, fun st3 => ?_⟩
  · unfold handleLogin
    by_cases he : (jsTrim email == "") = true
    · rw [if_pos he]
      rintro ⟨hnc, -⟩
      exact absurd hnc (by simp)
    · rw [if_neg he]
      by_cases hg : (jsTrim otpCode == "" || jsLength otpCode != 6 ||
          !matchSixDigitRe otpCode) = true
      · rw [if_pos hg]
        rintro ⟨hnc, -⟩
        exact absurd hnc (by simp)
      · rw [if_neg hg]
        rcases hv : verifyOtp (jsTrim email) (jsTrim otpCode) with u | resp
        · rintro ⟨-, v, hveq, -⟩
          exact absurd hveq (by simp)
        · rintro ⟨-, v, hveq, hstat⟩
          injection hveq with hv2
          subst hv2
          have hs : (resp.status == "success") = true := beq_iff_eq.mpr hstat
          constructor
          · simp only [hs, if_true]
          · simp only [hs, if_true]
            exact storeGet_storeSet store "isAuthenticated" "true"
  · unfold handleLogin
    by_cases he : (jsTrim email == "") = true
    · rw [if_pos he]
      intro _
      rfl
    · rw [if_neg he]
      by_cases hg : (jsTrim otpCode == "" || jsLength otpCode != 6 ||
          !matchSixDigitRe otpCode) = true
      · rw [if_pos hg]
        intro _
        rfl
      · rw [if_neg hg]
        rcases hv : verifyOtp (jsTrim email) (jsTrim otpCode) with u | resp
        · intro _
          rfl
        · by_cases hs : (resp.status == "success") = true
          · intro hn
            refine absurd ⟨?_, resp, rfl, beq_iff_eq.mp hs⟩ hn
            simp only [hs, if_true]
          · intro _
            have hs2 : (resp.status == "success") = false := by
              rcases hq : (resp.status == "success")
              · rfl
              · exact absurd hq hs
            simp only [hs2, Bool.false_eq_true, if_false]
  · unfold protectedRoute
    by_cases h : storeGet st3 "isAuthenticated" = some "true"
    · rw [if_pos h]
      exact ⟨fun _ => h, fun _ => rfl⟩
    · rw [if_neg h]
      exact ⟨fun hh => absurd hh (by simp), fun hh => absurd hh h⟩

/-- Claim C8, witness: a successful verification at concrete inputs writes
the flag, and it reads back as `"true"`. -/
theorem c8_witness :
    (handleLogin "a@b.c" "123456" (fun _ _ => .ok ⟨"success"⟩) []).store =
      storeSet [] "isAuthenticated" "true" ∧
    storeGet (handleLogin "a@b.c" "123456" (fun _ _ => .ok ⟨"success"⟩) []).store
      "isAuthenticated" = some "true" :=
  (c8_session_flag_lifecycle "a@b.c" "123456" (fun _ _ => .ok ⟨"success"⟩) []).1
    ⟨by decide, ⟨"success"⟩, rfl, rfl⟩

end Brainiac
